import Mathlib

/-!
Verification of the auditoff Lua vulnerability scanner (src/main.py) against its
natural-language specification. The Python module is shallowly embedded: the
luaparser syntax tree becomes the inductive type `LNode`, the global mutable
`vulnerabilities` list becomes explicit list passing, and attribute errors
raised on malformed tree shapes become `Except.error`.
-/

/-- INT_MAX from main.py. -/
def INT_MAX : Int := 2147483647

/-- INT_MIN from main.py. -/
def INT_MIN : Int := -2147483648

/-- One recorded vulnerability, mirroring the dict built by `add_vulnerability`
(name, description, pattern, severity, line). `line` is `none` when
`get_line_number` resolved to Python `None`. -/
structure Finding where
  name : String
  description : String
  pattern : String
  severity : String
  line : Option Nat
  deriving Repr, DecidableEq

/-- The luaparser syntax-tree node variants that main.py inspects. Every node
carries the optional source line that luaparser attaches. A `Function` stores
the identifier of its `Name` node when it has one; `name = none` models a
Function node missing its name, on which the Python attribute access
`node.name.id` raises. A Function body is a `Block` whose `body` list holds
the direct statements (Python `node.body.body`). -/
inductive LNode where
  | Block (line : Option Nat) (body : List LNode)
  | Function (line : Option Nat) (name : Option String) (args : List LNode) (body : LNode)
  | Return (line : Option Nat) (values : List LNode)
  | Assign (line : Option Nat) (targets : List LNode) (values : List LNode)
  | LocalAssign (line : Option Nat) (targets : List LNode) (values : List LNode)
  | AddOp (line : Option Nat) (left : LNode) (right : LNode)
  | SubOp (line : Option Nat) (left : LNode) (right : LNode)
  | MultOp (line : Option Nat) (left : LNode) (right : LNode)
  | Number (line : Option Nat) (n : Int)
  | Name (line : Option Nat) (id : String)
  | Call (line : Option Nat) (func : LNode) (args : List LNode)
  | Index (line : Option Nat) (idx : LNode) (value : LNode)
  | If (line : Option Nat) (test : LNode) (body : LNode) (orelse : List LNode)
  | ElseIf (line : Option Nat) (test : LNode) (body : LNode) (orelse : List LNode)
  deriving Repr

/-- The own optional source line of a node. -/
def lineOf : LNode → Option Nat
  | .Block ln _ => ln
  | .Function ln _ _ _ => ln
  | .Return ln _ => ln
  | .Assign ln _ _ => ln
  | .LocalAssign ln _ _ => ln
  | .AddOp ln _ _ => ln
  | .SubOp ln _ _ => ln
  | .MultOp ln _ _ => ln
  | .Number ln _ => ln
  | .Name ln _ => ln
  | .Call ln _ _ => ln
  | .Index ln _ _ => ln
  | .If ln _ _ _ => ln
  | .ElseIf ln _ _ _ => ln

/-- The direct statement list of a function body: Python `block.body` on the
Block node (the parser guarantees a Function body is a Block). -/
def blockStmts : LNode → List LNode
  | .Block _ ss => ss
  | _ => []

/-- main.py `get_line_number`, expressed on the chain of line attributes from a
node up through its parents: return the first concrete line on the chain and
`none` when no node on the chain carries one. `selfLine` is the own line of
the node, `anc` the lines of its parents, nearest first. -/
def resolveLine (selfLine : Option Nat) (anc : List (Option Nat)) : Option Nat :=
  match selfLine with
  | some l => some l
  | none =>
    match anc with
    | [] => none
    | a :: rest => resolveLine a rest

mutual
/-- luaparser `ast.walk`: pre-order traversal yielding every node exactly once.
Each visited node is paired with the line attributes of its parent chain
(nearest parent first), which is what `get_line_number` reads through the
`_parent` back-references. -/
def walkA (anc : List (Option Nat)) : LNode → List (LNode × List (Option Nat))
  | .Block ln body => (.Block ln body, anc) :: walkAList (ln :: anc) body
  | .Function ln nm args body =>
      (.Function ln nm args body, anc) ::
        (walkAList (ln :: anc) args ++ walkA (ln :: anc) body)
  | .Return ln vals => (.Return ln vals, anc) :: walkAList (ln :: anc) vals
  | .Assign ln ts vs =>
      (.Assign ln ts vs, anc) :: (walkAList (ln :: anc) ts ++ walkAList (ln :: anc) vs)
  | .LocalAssign ln ts vs =>
      (.LocalAssign ln ts vs, anc) :: (walkAList (ln :: anc) ts ++ walkAList (ln :: anc) vs)
  | .AddOp ln l r => (.AddOp ln l r, anc) :: (walkA (ln :: anc) l ++ walkA (ln :: anc) r)
  | .SubOp ln l r => (.SubOp ln l r, anc) :: (walkA (ln :: anc) l ++ walkA (ln :: anc) r)
  | .MultOp ln l r => (.MultOp ln l r, anc) :: (walkA (ln :: anc) l ++ walkA (ln :: anc) r)
  | .Number ln v => [(.Number ln v, anc)]
  | .Name ln i => [(.Name ln i, anc)]
  | .Call ln f args =>
      (.Call ln f args, anc) :: (walkA (ln :: anc) f ++ walkAList (ln :: anc) args)
  | .Index ln ix v => (.Index ln ix v, anc) :: (walkA (ln :: anc) v ++ walkA (ln :: anc) ix)
  | .If ln t body orelse =>
      (.If ln t body orelse, anc) ::
        (walkA (ln :: anc) t ++ walkA (ln :: anc) body ++ walkAList (ln :: anc) orelse)
  | .ElseIf ln t body orelse =>
      (.ElseIf ln t body orelse, anc) ::
        (walkA (ln :: anc) t ++ walkA (ln :: anc) body ++ walkAList (ln :: anc) orelse)

/-- Pre-order traversal of a list of sibling nodes sharing a parent chain. -/
def walkAList (anc : List (Option Nat)) : List LNode → List (LNode × List (Option Nat))
  | [] => []
  | n :: ns => walkA anc n ++ walkAList anc ns
end

/-- main.py `is_potential_overflow`. -/
def is_potential_overflow (number : Int) : Bool :=
  decide (number ≥ INT_MAX) || decide (number ≤ INT_MIN)

/-- The finding recorded by the overflow rule (name, pattern and severity are
fixed; the description varies with the position of the literal). -/
def overflow_finding (description : String) (ln : Option Nat) : Finding :=
  ⟨"Integer Overflow/Underflow", description, "overflow_underflow", "high", ln⟩

/-- The `isinstance(x, Number) and is_potential_overflow(x.n)` check that each
branch of `analyze_overflow_in_node` applies to one candidate node, recording
the line resolved from the candidate through its parent chain `anc`. -/
def numberCheck (description : String) (anc : List (Option Nat)) : LNode → List Finding
  | .Number nl v =>
      if is_potential_overflow v then [overflow_finding description (resolveLine nl anc)]
      else []
  | _ => []

/-- main.py `analyze_overflow_in_node`, as the list of findings it appends for
one visited node whose parent-chain lines are `anc`. -/
def analyze_overflow_in_node (anc : List (Option Nat)) : LNode → List Finding
  | .AddOp ln l r =>
      numberCheck "Potential integer overflow/underflow detected with left operand." (ln :: anc) l ++
      numberCheck "Potential integer overflow/underflow detected with right operand." (ln :: anc) r
  | .SubOp ln l r =>
      numberCheck "Potential integer overflow/underflow detected with left operand." (ln :: anc) l ++
      numberCheck "Potential integer overflow/underflow detected with right operand." (ln :: anc) r
  | .MultOp ln l r =>
      numberCheck "Potential integer overflow/underflow detected with left operand." (ln :: anc) l ++
      numberCheck "Potential integer overflow/underflow detected with right operand." (ln :: anc) r
  | .LocalAssign ln _ vs =>
      vs.flatMap
        (numberCheck "Potential integer overflow/underflow detected with local variable assignment." (ln :: anc))
  | .Function ln _ args _ =>
      args.flatMap
        (numberCheck "Potential integer overflow/underflow detected with function argument." (ln :: anc))
  | _ => []

/-- The message of the Python AttributeError raised by `node.name.id` when the
Function node has no name. -/
def attrErrMsg : String :=
  "AttributeError: \x27NoneType\x27 object has no attribute \x27id\x27"

/-- One iteration of the loop in main.py `analyze_overflow_and_return` for one
walked node: run `analyze_overflow_in_node` on it, for a Function re-walk the
whole body and run the per-node check again on every body node, and for a
Function evaluate the Python comparison of `node.name.id` against the
literal another_example; that attribute access
raises when the name is missing, otherwise the name-restricted Return check
runs over the direct body statements. -/
def overflowStep (p : LNode × List (Option Nat)) : Except String (List Finding) :=
  let base := analyze_overflow_in_node p.2 p.1
  match p.1 with
  | .Function ln nm _ body =>
    let inner := (walkA (ln :: p.2) body).flatMap fun q => analyze_overflow_in_node q.2 q.1
    match nm with
    | none => Except.error attrErrMsg
    | some s =>
      let retPart :=
        if s = "another_example" then
          match body with
          | .Block bln stmts =>
            stmts.flatMap fun st =>
              match st with
              | .Return rln vals =>
                  vals.flatMap
                    (numberCheck
                      ("Potential integer overflow/underflow detected in return statement of function \x27" ++ s ++ "\x27.")
                      (rln :: bln :: ln :: p.2))
              | _ => []
          | _ => []
        else []
      Except.ok (base ++ inner ++ retPart)
  | _ => Except.ok base

/-- Sequence a list of per-node results, concatenating the findings and
propagating the first raised error (after which the Python scan is aborted). -/
def collectE : List (Except String (List Finding)) → Except String (List Finding)
  | [] => Except.ok []
  | x :: xs =>
    match x with
    | Except.error e => Except.error e
    | Except.ok a =>
      match collectE xs with
      | Except.error e => Except.error e
      | Except.ok b => Except.ok (a ++ b)

/-- main.py `analyze_overflow_and_return` (the overflow half; the separate
`analyze_return` rule is modelled below): walk the tree and apply
`overflowStep` to every node. -/
def analyze_overflow_and_return (tree : LNode) : Except String (List Finding) :=
  collectE ((walkA [] tree).map overflowStep)

/-- Python `isinstance(n, astnodes.Return)`. -/
def is_return_node : LNode → Bool
  | .Return _ _ => true
  | _ => false

/-- The finding recorded by main.py `analyze_return`. -/
def missing_return_finding (ln : Option Nat) : Finding :=
  ⟨"Missing Return Statement", "A function is missing a return statement.",
    "missing_return", "low", ln⟩

/-- The per-function body of main.py `analyze_return`: one low finding when no
direct body statement is a Return node, none otherwise. `ln` is the resolved
line of the Function node. -/
def return_check (ln : Option Nat) (stmts : List LNode) : List Finding :=
  if stmts.any is_return_node then [] else [missing_return_finding ln]

/-- main.py `analyze_return`: walk the tree and apply the missing-return check
to the direct body statements of every Function node. -/
def analyze_return (tree : LNode) : List Finding :=
  (walkA [] tree).flatMap fun p =>
    match p.1 with
    | .Function ln _ _ body => return_check (resolveLine ln p.2) (blockStmts body)
    | _ => []

/-- Python `str.lower()` on one character: ASCII upper case maps to lower
case. (`String.toLower` itself does not reduce inside the kernel, so the
embedding carries its own equivalent definition.) -/
def lowerChar (c : Char) : Char :=
  if 65 ≤ c.toNat && c.toNat ≤ 90 then Char.ofNat (c.toNat + 32) else c

/-- Python `str.lower()` as used by main.py on identifier strings. -/
def lowerStr (s : String) : String := ⟨s.data.map lowerChar⟩

/-- The private-key identifier list of main.py `check_private_key_exposure`. -/
def private_key_words : List String :=
  ["privatekey", "private_key", "secretkey", "secret_key", "keypair", "key_pair", "api_key"]

/-- The finding recorded by `check_private_key_exposure` for target `id`. -/
def pk_finding (id : String) (ln : Option Nat) : Finding :=
  ⟨"Private Key Exposure",
    "Potential exposure of private key in variable \x27" ++ id ++ "\x27.",
    "private_key_exposure", "high", ln⟩

/-- The inner loop of `check_private_key_exposure` over the targets of one
Assign node: one finding per target that is a Name whose lower-cased identifier
is in `private_key_words`. `ln` is the resolved line of the Assign node. -/
def pk_targets_check (ln : Option Nat) (targets : List LNode) : List Finding :=
  targets.flatMap fun t =>
    match t with
    | .Name _ id => if private_key_words.contains (lowerStr id) then [pk_finding id ln] else []
    | _ => []

/-- main.py `check_private_key_exposure`: walk the tree, check every Assign. -/
def check_private_key_exposure (tree : LNode) : List Finding :=
  (walkA [] tree).flatMap fun p =>
    match p.1 with
    | .Assign ln targets _ => pk_targets_check (resolveLine ln p.2) targets
    | _ => []

/-- The inner `is_external_call` of main.py `analyze_reentrancy`: a Call whose callee is a
Name literally equal to "external_call". -/
def is_external_call : LNode → Bool
  | .Call _ (.Name _ i) _ => i == "external_call"
  | _ => false

/-- The inner `has_state_change` of main.py `analyze_reentrancy`: an Assign node. -/
def has_state_change : LNode → Bool
  | .Assign _ _ _ => true
  | _ => false

/-- The finding recorded by `analyze_reentrancy`; `ln` is the resolved line of
the enclosing Function node (the Python code records `get_line_number(node)`
on the Function, not on the matched call or assignment). -/
def reentrancy_finding (ln : Option Nat) : Finding :=
  ⟨"Reentrancy", "A function calls an external contract before updating its state.",
    "external_call", "high", ln⟩

/-- The doubly nested loop of `analyze_reentrancy` over a direct statement
list: for every external_call statement, one finding per Assign statement
appearing anywhere later in the same list. -/
def reentrancy_scan (ln : Option Nat) : List LNode → List Finding
  | [] => []
  | n :: rest =>
    (if is_external_call n then
       rest.flatMap fun m => if has_state_change m then [reentrancy_finding ln] else []
     else []) ++ reentrancy_scan ln rest

/-- main.py `analyze_reentrancy`: walk the tree, scan every Function body. -/
def analyze_reentrancy (tree : LNode) : List Finding :=
  (walkA [] tree).flatMap fun p =>
    match p.1 with
    | .Function ln _ _ body => reentrancy_scan (resolveLine ln p.2) (blockStmts body)
    | _ => []

/-- The deprecated-function list of main.py `analyze_floating_pragma`. -/
def deprecated_functions : List String := ["setfenv", "getfenv"]

/-- main.py `analyze_floating_pragma`: a low finding for every Call whose
callee Name is in `deprecated_functions`. -/
def analyze_floating_pragma (tree : LNode) : List Finding :=
  (walkA [] tree).flatMap fun p =>
    match p.1 with
    | .Call ln (.Name _ i) _ =>
      if deprecated_functions.contains i then
        [⟨"Floating Pragma", "Floating pragma issue detected with function \x27" ++ i ++ "\x27.",
           "floating_pragma", "low", resolveLine ln p.2⟩]
      else []
    | _ => []

/-- main.py `analyze_denial_of_service`: a medium finding for every Call whose
callee Name is exactly "perform_expensive_operation". -/
def analyze_denial_of_service (tree : LNode) : List Finding :=
  (walkA [] tree).flatMap fun p =>
    match p.1 with
    | .Call ln (.Name _ i) _ =>
      if i == "perform_expensive_operation" then
        [⟨"Denial of Service",
           "Potential Denial of Service vulnerability detected with function \x27" ++ i ++ "\x27.",
           "denial_of_service", "medium", resolveLine ln p.2⟩]
      else []
    | _ => []

/-- The inner `is_external_call` of main.py `analyze_unchecked_external_calls`: a Call
whose callee is an Index expression over a Name. -/
def is_index_call : LNode → Bool
  | .Call _ (.Index _ _ (.Name _ _)) _ => true
  | _ => false

/-- The finding recorded by `analyze_unchecked_external_calls` in function
`nm` for a matched statement with resolved line `ln`. -/
def unchecked_finding (nm : String) (ln : Option Nat) : Finding :=
  ⟨"Unchecked External Calls",
    "Unchecked external call detected in function \x27" ++ nm ++ "\x27.",
    "unchecked_external_call", "medium", ln⟩

/-- One Function iteration of `analyze_unchecked_external_calls`: one medium
finding per direct body statement that is an Index-Call, carrying the
resolved line of the statement; formatting the description reads `node.name.id`,
which raises when the Function has a matched statement but no name. -/
def unchecked_step (p : LNode × List (Option Nat)) : Except String (List Finding) :=
  match p.1 with
  | .Function ln nm _ (.Block bln stmts) =>
    match nm with
    | some s =>
      Except.ok (stmts.flatMap fun n =>
        if is_index_call n then [unchecked_finding s (resolveLine (lineOf n) (bln :: ln :: p.2))]
        else [])
    | none => if stmts.any is_index_call then Except.error attrErrMsg else Except.ok []
  | _ => Except.ok []

/-- main.py `analyze_unchecked_external_calls`. -/
def analyze_unchecked_external_calls (tree : LNode) : Except String (List Finding) :=
  collectE ((walkA [] tree).map unchecked_step)

/-- The transfer-function name list of `analyze_greedy_suicidal_functions`. -/
def transfer_functions : List String :=
  ["transfer", "transfer_funds", "transferfunds", "send", "pay"]

/-- main.py `is_fund_transfer`: a Call whose callee Name, lower-cased, is in
`transfer_functions`. -/
def is_fund_transfer : LNode → Bool
  | .Call _ (.Name _ i) _ => transfer_functions.contains (lowerStr i)
  | _ => false

/-- main.py `has_conditional`: an If or ElseIf node. -/
def has_conditional : LNode → Bool
  | .If _ _ _ _ => true
  | .ElseIf _ _ _ _ => true
  | _ => false

/-- The finding recorded by `analyze_greedy_suicidal_functions` for function
`nm` at resolved Function line `ln`. -/
def greedy_finding (nm : String) (ln : Option Nat) : Finding :=
  ⟨"Greedy/Suicidal Functions",
    "Potential greedy/suicidal contract detected in function \x27" ++ nm ++ "\x27.",
    "greedy_suicidal_function", "high", ln⟩

/-- The per-function body of `analyze_greedy_suicidal_functions`: exactly one
high finding when some direct statement is a fund-transfer call and no direct
statement is an If/ElseIf, none otherwise. -/
def greedy_check (nm : String) (ln : Option Nat) (stmts : List LNode) : List Finding :=
  if stmts.any is_fund_transfer && !(stmts.any has_conditional) then [greedy_finding nm ln]
  else []

/-- One Function iteration of `analyze_greedy_suicidal_functions`; formatting
the description reads `node.name.id`, which raises when the rule fires on a
Function with no name. -/
def greedy_step (p : LNode × List (Option Nat)) : Except String (List Finding) :=
  match p.1 with
  | .Function ln nm _ body =>
    let stmts := blockStmts body
    match nm with
    | some s => Except.ok (greedy_check s (resolveLine ln p.2) stmts)
    | none =>
      if stmts.any is_fund_transfer && !(stmts.any has_conditional) then Except.error attrErrMsg
      else Except.ok []
  | _ => Except.ok []

/-- main.py `analyze_greedy_suicidal_functions`. -/
def analyze_greedy_suicidal_functions (tree : LNode) : Except String (List Finding) :=
  collectE ((walkA [] tree).map greedy_step)

/-- One scan-and-report cycle of main.py `main`: the eight rules run in their
fixed order, each appending to the process-wide `vulnerabilities` list passed
in as `vulns`; an exception raised inside a rule aborts the scan, so no
finding list is produced for that run. -/
def run_all (vulns : List Finding) (tree : LNode) : Except String (List Finding) := do
  let v1 := vulns ++ analyze_return tree
  let o ← analyze_overflow_and_return tree
  let v2 := v1 ++ o ++ analyze_reentrancy tree ++ check_private_key_exposure tree ++
    analyze_floating_pragma tree ++ analyze_denial_of_service tree
  let u ← analyze_unchecked_external_calls tree
  let g ← analyze_greedy_suicidal_functions tree
  pure (v2 ++ u ++ g)

deriving instance DecidableEq for Except

/-- A node as `get_line_number` sees it: its own optional line attribute and
its optional `_parent` back-reference (the root has none). -/
inductive PNode where
  | mk (line : Option Nat) (parent : Option PNode)

/-- The own line attribute of a node. -/
def pLine : PNode → Option Nat
  | .mk l _ => l

/-- main.py `get_line_number`: the own line of the node when it is not None,
otherwise the resolution of the parent, and None at a lineless root. -/
def get_line_number : PNode → Option Nat
  | .mk (some l) _ => some l
  | .mk none (some p) => get_line_number p
  | .mk none none => none

/-- The line attributes of the proper ancestors of a node, nearest first. -/
def ancChain : PNode → List (Option Nat)
  | .mk _ none => []
  | .mk _ (some p) => pLine p :: ancChain p

/-- The Number-literal values sitting in a list of candidate nodes. -/
def numLitVals : List LNode → List Int
  | [] => []
  | .Number _ v :: rest => v :: numLitVals rest
  | _ :: rest => numLitVals rest

/-- Stated from the spec for comparison with `analyze_overflow_in_node`: the
numeric literals of a node that the overflow rule is specified to examine —
operands of Add/Sub/Mult, values of a LocalAssign, Function parameters. -/
def spec_checked_literals : LNode → List Int
  | .AddOp _ l r => numLitVals [l, r]
  | .SubOp _ l r => numLitVals [l, r]
  | .MultOp _ l r => numLitVals [l, r]
  | .LocalAssign _ _ vs => numLitVals vs
  | .Function _ _ args _ => numLitVals args
  | _ => []

/-- Stated from the spec: a literal out of the signed 32-bit open interval. -/
def spec_overflow_literal (v : Int) : Bool :=
  decide (v ≥ 2147483647 ∨ v ≤ -2147483648)

/-- Number of findings of a successful run; 0 for an aborted run. -/
def okLength : Except String (List Finding) → Nat
  | Except.ok l => l.length
  | Except.error _ => 0

/-- A source tree with exactly one overflow violation, sitting inside a
function body: `function f() local x = v end` with the function header on
line 1 and the local assignment on line 2. -/
def fnWithLocal (v : Int) : LNode :=
  .Block none
    [.Function (some 1) (some "f") []
      (.Block (some 1)
        [.LocalAssign (some 2) [.Name (some 2) "x"] [.Number (some 2) v]])]

/-- The finding main.py records for the overflowing local assignment in
`fnWithLocal`. -/
def localOverflowFinding : Finding :=
  overflow_finding
    "Potential integer overflow/underflow detected with local variable assignment."
    (some 2)

/-- A single top-level assignment to `private_key`, used to exercise one full
engine run: `private_key = 1` on line 1. -/
def pkTree : LNode :=
  .Block none [.Assign (some 1) [.Name (some 1) "private_key"] [.Number (some 1) 1]]

/-- The findings of one full engine run over `pkTree`. -/
def pkRunFindings : List Finding := [pk_finding "private_key" (some 1)]

/-- A tree containing a Function node missing its name, with an empty body. -/
def namelessFnTree : LNode :=
  .Block (some 1) [.Function (some 1) none [] (.Block (some 1) [])]

/-- A reentrancy example with distinct lines for the function header (1), the
external_call statement (2) and the subsequent assignment (3). -/
def reentrancyTree : LNode :=
  .Block none
    [.Function (some 1) (some "f") []
      (.Block (some 1)
        [.Call (some 2) (.Name (some 2) "external_call") [.Name (some 2) "x"],
         .Assign (some 3) [.Name (some 3) "y"] [.Number (some 3) 1]])]

/-- Direct statement list whose only Return sits nested inside an If body, so
the shallow missing-return check does not see it. -/
def nestedReturnStmts : List LNode :=
  [.If (some 2) (.Name (some 2) "cond") (.Block (some 2) [.Return (some 3) []]) []]

/-- Direct statement list with a fund-transfer call and no conditional. -/
def greedyStmtsNoCond : List LNode :=
  [.Call (some 2) (.Name (some 2) "transfer") [.Name (some 2) "amt"]]

/-- The same direct statement list with an If statement added alongside. -/
def greedyStmtsWithCond : List LNode :=
  greedyStmtsNoCond ++ [.If (some 3) (.Name (some 3) "cond") (.Block (some 3) []) []]

/-- `resolveLine` returns the first concrete line attribute on the chain. -/
theorem resolveLine_eq_findSome (selfLine : Option Nat) (anc : List (Option Nat)) :
    resolveLine selfLine anc = (selfLine :: anc).findSome? id := by
  induction anc generalizing selfLine with
  | nil => cases selfLine <;> simp [resolveLine, List.findSome?]
  | cons a rest ih => cases selfLine <;> simp [resolveLine, List.findSome?, ih]

/-- C8: for every node, line resolution returns the own concrete line
number if it has one, otherwise the result of resolving its parent: it is the
first concrete line attribute found while walking the parent chain upward,
and `none` when no node on the chain (the node itself included) carries one. -/
theorem get_line_number_walks_parent_chain : (p : PNode) →
    get_line_number p = (pLine p :: ancChain p).findSome? id
  | .mk (some l) none => by simp [get_line_number, pLine, ancChain, List.findSome?]
  | .mk (some l) (some q) => by simp [get_line_number, pLine, ancChain, List.findSome?]
  | .mk none none => by simp [get_line_number, pLine, ancChain, List.findSome?]
  | .mk none (some q) => by
      have ih := get_line_number_walks_parent_chain q
      simpa [get_line_number, pLine, ancChain, List.findSome?] using ih

/-- C9: reference failure semantics. On a tree containing a Function node
missing its name, the another_example branch of the overflow rule evaluates
`node.name.id` and raises, and the whole scan aborts with that error instead
of producing a finding list. -/
theorem nameless_function_aborts_scan :
    analyze_overflow_and_return namelessFnTree = Except.error attrErrMsg
    ∧ run_all [] namelessFnTree = Except.error attrErrMsg :=
  ⟨by decide, by decide⟩


/-- A flatMap whose function yields one element when a predicate holds and
none otherwise has as many elements as the predicate counts. -/
theorem flatMap_length_countP {α β : Type} (f : α → List β) (p : α → Bool)
    (hf : ∀ x, (f x).length = if p x then 1 else 0) (l : List α) :
    (l.flatMap f).length = l.countP p := by
  induction l with
  | nil => rfl
  | cons x xs ih =>
    simp only [List.flatMap_cons, List.countP_cons, List.length_append, hf x, ih]
    omega

/-- A flatMap all of whose per-element outputs satisfy a predicate satisfies
it as a whole. -/
theorem flatMap_all_of_all {α β : Type} (f : α → List β) (q : β → Bool)
    (hf : ∀ x, (f x).all q = true) (l : List α) : (l.flatMap f).all q = true := by
  induction l with
  | nil => rfl
  | cons x xs ih => simp [List.all_append, hf x, ih]

/-- C5: over the targets of one Assign node, the private-key rule records
exactly one high Private Key Exposure finding per target that is a Name whose
lower-cased identifier is a member of the exact seven-word set — so one
finding for an Assign with a single matching target, and none for a name
outside the set such as public_key (membership is exact, not substring). -/
theorem private_key_exact_set_per_target (ln tl : Option Nat) (targets : List LNode) :
    (pk_targets_check ln targets).length
        = targets.countP (fun t =>
            match t with
            | LNode.Name _ id => private_key_words.contains (lowerStr id)
            | _ => false)
    ∧ (pk_targets_check ln targets).all
        (fun f => f.severity == "high" && f.name == "Private Key Exposure") = true
    ∧ pk_targets_check ln [LNode.Name tl "public_key"] = [] := by
  have hpk : lowerStr "public_key" ∉ private_key_words := by decide
  refine ⟨?_, ?_, ?_⟩
  · exact flatMap_length_countP _ _
      (fun x => by
        cases x <;> try rfl
        rename_i nln id
        by_cases h : lowerStr id ∈ private_key_words <;> simp [h])
      targets
  · exact flatMap_all_of_all _ _
      (fun x => by
        cases x <;> try rfl
        rename_i nln id
        by_cases h : lowerStr id ∈ private_key_words <;> simp [h, pk_finding])
      targets
  · simp [pk_targets_check, hpk]

/-- C6: the missing-return check over the direct statement list of a Function
records no finding exactly when some direct statement is a Return node; when
none is — in particular for an empty body, and for a body whose only Return
sits nested inside an inner If block — it records exactly the one low
Missing Return finding. -/
theorem missing_return_shallow_check (ln : Option Nat) (stmts : List LNode) :
    (return_check ln stmts = [] ↔ ∃ s ∈ stmts, is_return_node s = true)
    ∧ ((∀ s ∈ stmts, is_return_node s = false) →
        return_check ln stmts = [missing_return_finding ln])
    ∧ return_check ln [] = [missing_return_finding ln]
    ∧ (missing_return_finding ln).severity = "low"
    ∧ return_check ln nestedReturnStmts = [missing_return_finding ln] := by
  have hnest : nestedReturnStmts.any is_return_node = false := by decide
  refine ⟨?_, ?_, rfl, rfl, by simp [return_check, hnest]⟩
  · unfold return_check
    cases h : stmts.any is_return_node <;> simp_all [List.any_eq_true, List.any_eq_false]
  · intro hall
    unfold return_check
    have : stmts.any is_return_node = false := List.any_eq_false.mpr (by simpa using hall)
    simp [this]

/-- Witness for the missing-return theorem at a concrete statement list whose
only Return is nested inside an If body. -/
theorem missing_return_shallow_check_witness :
    return_check (some 1) nestedReturnStmts = [missing_return_finding (some 1)] :=
  (missing_return_shallow_check (some 1) nestedReturnStmts).2.1 (by decide)

/-- C4: the greedy/suicidal check over the direct statement list of a Function
records exactly one high finding precisely when some direct statement is a
call to a transfer-style name (case-insensitive membership in transfer,
transfer_funds, transferfunds, send, pay) and no direct statement is an If or
ElseIf; the presence of any If/ElseIf in the same list suppresses the
finding. -/
theorem greedy_suicidal_per_function (nm : String) (ln : Option Nat) (stmts : List LNode) :
    ((greedy_check nm ln stmts).length = 1 ↔
        (∃ s ∈ stmts, is_fund_transfer s = true) ∧ ∀ s ∈ stmts, has_conditional s = false)
    ∧ ((∃ s ∈ stmts, has_conditional s = true) → greedy_check nm ln stmts = [])
    ∧ (greedy_check nm ln stmts).all
        (fun f => f.severity == "high" && f.name == "Greedy/Suicidal Functions") = true := by
  unfold greedy_check
  refine ⟨?_, ?_, ?_⟩
  · cases ht : stmts.any is_fund_transfer <;> cases hc : stmts.any has_conditional <;>
      simp_all [List.any_eq_true, List.any_eq_false]
  · intro h
    have hc : stmts.any has_conditional = true := List.any_eq_true.mpr h
    simp [hc]
  · cases ht : stmts.any is_fund_transfer <;> cases hc : stmts.any has_conditional <;>
      simp [ht, hc, greedy_finding]

/-- Witness for the greedy/suicidal theorem: an If statement in the same
direct statement list suppresses the finding. -/
theorem greedy_suicidal_per_function_witness :
    greedy_check "f" (some 1) greedyStmtsWithCond = [] :=
  (greedy_suicidal_per_function "f" (some 1) greedyStmtsWithCond).2.1 (by decide)

/-- The inner loop of the reentrancy rule over the statements following an
external call yields a finding exactly when some following statement is an
Assign. -/
theorem reentrancy_inner_ne_nil (ln : Option Nat) (rest : List LNode) :
    (rest.flatMap fun m => if has_state_change m then [reentrancy_finding ln] else []) ≠ []
      ↔ ∃ a ∈ rest, has_state_change a = true := by
  induction rest with
  | nil => simp
  | cons m ms ih =>
    by_cases h : has_state_change m = true <;> simp [h, ih]

/-- C3: the reentrancy scan of the direct statement list of a Function records a
finding exactly when a Call to the literal name external_call is followed,
anywhere later in the same list, by an Assign statement (the two-element
sublist order captures "followed later"); with no Assign after any such
call — e.g. when every Assign precedes the call — nothing is recorded. -/
theorem reentrancy_order_characterization (ln : Option Nat) (stmts : List LNode) :
    reentrancy_scan ln stmts ≠ [] ↔
      ∃ c a, List.Sublist [c, a] stmts ∧ is_external_call c = true
        ∧ has_state_change a = true := by
  induction stmts with
  | nil => simp [reentrancy_scan]
  | cons n rest ih =>
    have hstep : reentrancy_scan ln (n :: rest)
        = (if is_external_call n then
            rest.flatMap fun m => if has_state_change m then [reentrancy_finding ln] else []
          else []) ++ reentrancy_scan ln rest := rfl
    rw [hstep]
    by_cases hn : is_external_call n = true
    · rw [if_pos hn, ne_eq, List.append_eq_nil, not_and_or, ← ne_eq, ← ne_eq]
      rw [reentrancy_inner_ne_nil, ih]
      constructor
      · rintro (⟨a, ha, hsa⟩ | ⟨c, a, hsub, hc, hsa⟩)
        · exact ⟨n, a, List.cons_sublist_cons.mpr (List.singleton_sublist.mpr ha), hn, hsa⟩
        · exact ⟨c, a, hsub.cons n, hc, hsa⟩
      · rintro ⟨c, a, hsub, hc, hsa⟩
        rcases List.sublist_cons_iff.mp hsub with h | ⟨r, hr, hrs⟩
        · exact Or.inr ⟨c, a, h, hc, hsa⟩
        · injection hr with h1 h2
          subst h1; subst h2
          exact Or.inl ⟨a, List.singleton_sublist.mp hrs, hsa⟩
    · rw [if_neg hn, List.nil_append, ih]
      constructor
      · rintro ⟨c, a, hsub, hc, hsa⟩
        exact ⟨c, a, hsub.cons n, hc, hsa⟩
      · rintro ⟨c, a, hsub, hc, hsa⟩
        rcases List.sublist_cons_iff.mp hsub with h | ⟨r, hr, hrs⟩
        · exact ⟨c, a, h, hc, hsa⟩
        · injection hr with h1 h2
          subst h1
          exact absurd hc hn

/-- Every finding the reentrancy scan records carries the line it was given,
which `analyze_reentrancy` sets to the resolved line of the enclosing Function. -/
theorem reentrancy_scan_line (L : Option Nat) (stmts : List LNode) (f : Finding)
    (hf : f ∈ reentrancy_scan L stmts) : f.line = L := by
  induction stmts with
  | nil => simp [reentrancy_scan] at hf
  | cons n rest ih =>
    rcases List.mem_append.mp hf with h | h
    · by_cases hn : is_external_call n = true
      · rw [if_pos hn] at h
        rcases List.mem_flatMap.mp h with ⟨m, _hm, hfm⟩
        by_cases hsm : has_state_change m = true
        · rw [if_pos hsm] at hfm
          rcases List.mem_singleton.mp hfm with rfl
          rfl
        · rw [if_neg hsm] at hfm
          simp at hfm
      · rw [if_neg hn] at h
        simp at h
    · exact ih h

/-- C10: every Reentrancy finding carries as its line the resolved line of
the enclosing Function node walked by the rule — not the line of the matched
external_call statement nor that of the subsequent Assign. -/
theorem reentrancy_finding_line_is_function_line (t : LNode) (f : Finding)
    (h : f ∈ analyze_reentrancy t) :
    ∃ p ∈ walkA [] t, ∃ ln nm args body,
      p.1 = LNode.Function ln nm args body ∧ f.line = resolveLine ln p.2 := by
  unfold analyze_reentrancy at h
  rcases List.mem_flatMap.mp h with ⟨p, hp, hf⟩
  obtain ⟨node, anc⟩ := p
  cases node
  case Function ln nm args body =>
    exact ⟨(LNode.Function ln nm args body, anc), hp, ln, nm, args, body, rfl,
      reentrancy_scan_line _ _ _ hf⟩
  all_goals simp at hf

/-- Witness for the reentrancy line theorem on a tree whose function header,
external_call statement and subsequent assignment sit on lines 1, 2 and 3:
the finding points at line 1. -/
theorem reentrancy_finding_line_is_function_line_witness :
    ∃ p ∈ walkA [] reentrancyTree, ∃ ln nm args body,
      p.1 = LNode.Function ln nm args body
      ∧ (reentrancy_finding (some 1)).line = resolveLine ln p.2 :=
  reentrancy_finding_line_is_function_line reentrancyTree (reentrancy_finding (some 1))
    (by decide)

/-- The boundary predicate of the code agrees with that of the spec: at least INT_MAX or
at most INT_MIN, both inclusive. -/
theorem is_potential_overflow_eq_spec (v : Int) :
    is_potential_overflow v = spec_overflow_literal v := by
  unfold is_potential_overflow spec_overflow_literal INT_MAX INT_MIN
  by_cases h1 : (2147483647 : Int) ≤ v <;> by_cases h2 : v ≤ -2147483648 <;>
    simp [h1, h2, ge_iff_le]

/-- One candidate position yields one finding exactly when it holds a Number
literal outside the 32-bit range. -/
theorem numberCheck_length_eq (d : String) (anc : List (Option Nat)) (x : LNode) :
    (numberCheck d anc x).length = ((numLitVals [x]).filter spec_overflow_literal).length := by
  cases x
  case Number nln v =>
    show (if is_potential_overflow v then [overflow_finding d (resolveLine nln anc)]
      else []).length = _
    rw [is_potential_overflow_eq_spec]
    cases h : spec_overflow_literal v <;> simp [h, numLitVals]
  all_goals rfl

/-- `numLitVals` distributes over a cons. -/
theorem numLitVals_cons (x : LNode) (xs : List LNode) :
    numLitVals (x :: xs) = numLitVals [x] ++ numLitVals xs := by
  cases x <;> simp [numLitVals]

/-- A whole candidate list yields one finding per literal outside the range. -/
theorem numberCheck_flat_length (d : String) (anc : List (Option Nat)) (l : List LNode) :
    (l.flatMap (numberCheck d anc)).length
      = ((numLitVals l).filter spec_overflow_literal).length := by
  induction l with
  | nil => rfl
  | cons x xs ih =>
    rw [List.flatMap_cons, List.length_append, numberCheck_length_eq, numLitVals_cons x xs,
      List.filter_append, List.length_append, ih]

/-- Every finding a candidate position yields is the high overflow finding. -/
theorem numberCheck_all_fields (d : String) (anc : List (Option Nat)) (x : LNode) :
    (numberCheck d anc x).all
      (fun f => f.severity == "high" && f.name == "Integer Overflow/Underflow"
        && f.pattern == "overflow_underflow") = true := by
  cases x
  case Number nln v =>
    by_cases h : is_potential_overflow v = true <;> simp [numberCheck, h, overflow_finding]
  all_goals rfl

/-- C2: for one visited node, the overflow rule records exactly one finding
per Number literal sitting in a checked position (operand of Add/Sub/Mult,
value of a LocalAssign, Function parameter) whose value is at least
2147483647 or at most -2147483648, and no finding for literals strictly
inside that range; every recorded finding is the high-severity Integer
Overflow/Underflow finding. -/
theorem overflow_boundary_per_occurrence (anc : List (Option Nat)) (nd : LNode) :
    (analyze_overflow_in_node anc nd).length
        = ((spec_checked_literals nd).filter spec_overflow_literal).length
    ∧ (analyze_overflow_in_node anc nd).all
        (fun f => f.severity == "high" && f.name == "Integer Overflow/Underflow"
          && f.pattern == "overflow_underflow") = true := by
  constructor
  · cases nd
    case AddOp ln l r =>
      show (numberCheck _ _ l ++ numberCheck _ _ r).length = _
      rw [List.length_append, numberCheck_length_eq, numberCheck_length_eq,
        show spec_checked_literals (.AddOp ln l r) = numLitVals [l, r] from rfl,
        numLitVals_cons l [r], List.filter_append, List.length_append]
    case SubOp ln l r =>
      show (numberCheck _ _ l ++ numberCheck _ _ r).length = _
      rw [List.length_append, numberCheck_length_eq, numberCheck_length_eq,
        show spec_checked_literals (.SubOp ln l r) = numLitVals [l, r] from rfl,
        numLitVals_cons l [r], List.filter_append, List.length_append]
    case MultOp ln l r =>
      show (numberCheck _ _ l ++ numberCheck _ _ r).length = _
      rw [List.length_append, numberCheck_length_eq, numberCheck_length_eq,
        show spec_checked_literals (.MultOp ln l r) = numLitVals [l, r] from rfl,
        numLitVals_cons l [r], List.filter_append, List.length_append]
    case LocalAssign ln ts vs => exact numberCheck_flat_length _ _ vs
    case Function ln nm args body => exact numberCheck_flat_length _ _ args
    all_goals rfl
  · cases nd
    case AddOp ln l r =>
      show ((numberCheck _ _ l ++ numberCheck _ _ r).all _) = true
      rw [List.all_append, numberCheck_all_fields, numberCheck_all_fields]
      rfl
    case SubOp ln l r =>
      show ((numberCheck _ _ l ++ numberCheck _ _ r).all _) = true
      rw [List.all_append, numberCheck_all_fields, numberCheck_all_fields]
      rfl
    case MultOp ln l r =>
      show ((numberCheck _ _ l ++ numberCheck _ _ r).all _) = true
      rw [List.all_append, numberCheck_all_fields, numberCheck_all_fields]
      rfl
    case LocalAssign ln ts vs =>
      exact flatMap_all_of_all _ _ (numberCheck_all_fields _ _) vs
    case Function ln nm args body =>
      exact flatMap_all_of_all _ _ (numberCheck_all_fields _ _) args
    all_goals rfl

/-- The findings a run appends do not depend on what is already in the
process-wide collector: a run starting from `vulns` produces `vulns` followed
by the findings of a run from an empty collector. -/
theorem run_all_shift (vulns : List Finding) (t : LNode) :
    run_all vulns t = (run_all [] t).map (fun l => vulns ++ l) := by
  unfold run_all
  cases analyze_overflow_and_return t <;>
    cases analyze_unchecked_external_calls t <;>
      cases analyze_greedy_suicidal_functions t <;>
        simp [Except.map, Bind.bind, Except.bind, Pure.pure, Except.pure, List.append_assoc]

/-- C7: without draining the collector between runs, a second engine run over
the same source doubles the finding list, so every finding of a single run
appears exactly twice; with a drain (starting again from the empty
collector), the second run reproduces the same finding sequence, the engine
being deterministic. -/
theorem engine_rerun_doubles_without_drain (t : LNode) (F : List Finding)
    (h : run_all [] t = Except.ok F) :
    run_all F t = Except.ok (F ++ F)
    ∧ (∀ f : Finding, (F ++ F).count f = 2 * F.count f)
    ∧ run_all [] t = Except.ok F := by
  refine ⟨?_, ?_, h⟩
  · rw [run_all_shift F t, h]
    rfl
  · intro f
    rw [List.count_append, Nat.two_mul]

/-- Witness for the rerun theorem at a concrete one-finding source tree. -/
theorem engine_rerun_doubles_without_drain_witness :
    run_all pkRunFindings pkTree = Except.ok (pkRunFindings ++ pkRunFindings) :=
  (engine_rerun_doubles_without_drain pkTree pkRunFindings (by decide)).1

/-- C1 counterexample: on a tree whose single overflow violation sits inside
a function body, `analyze_overflow_and_return` records the finding twice, not
once — the walk over the whole tree and the per-function re-walk of the body
each record it. -/
theorem overflow_in_function_body_double_finding_cex :
    analyze_overflow_and_return (fnWithLocal 2147483647)
        = Except.ok [localOverflowFinding, localOverflowFinding]
    ∧ okLength (analyze_overflow_and_return (fnWithLocal 2147483647)) = 2
    ∧ okLength (analyze_overflow_and_return (fnWithLocal 2147483647)) ≠ 1 :=
  ⟨by decide, by decide, by decide⟩

/-- C1 as amended: for every literal the boundary predicate accepts, the
overflow pass over a function whose body holds that one violating local
assignment records exactly two identical Integer Overflow/Underflow findings
(one from the global walk, one from the per-function body re-walk). -/
theorem overflow_in_function_body_two_findings (v : Int)
    (h : is_potential_overflow v = true) :
    analyze_overflow_and_return (fnWithLocal v)
      = Except.ok [overflow_finding
          "Potential integer overflow/underflow detected with local variable assignment."
          (some 2),
        overflow_finding
          "Potential integer overflow/underflow detected with local variable assignment."
          (some 2)] := by
  simp [analyze_overflow_and_return, fnWithLocal, walkA, walkAList, overflowStep,
    analyze_overflow_in_node, numberCheck, collectE, h, resolveLine]

/-- Witness for the amended overflow-duplication theorem at INT_MAX. -/
theorem overflow_in_function_body_two_findings_witness :
    is_potential_overflow 2147483647 = true
    ∧ analyze_overflow_and_return (fnWithLocal 2147483647)
        = Except.ok [overflow_finding
            "Potential integer overflow/underflow detected with local variable assignment."
            (some 2),
          overflow_finding
            "Potential integer overflow/underflow detected with local variable assignment."
            (some 2)] :=
  ⟨by decide, overflow_in_function_body_two_findings 2147483647 (by decide)⟩
